import Mathlib

/-!
Verification development for the µbmp bitmap decoder (src/src/lib.rs).

The decoder `Bitmap::new` reads a whole file into a byte buffer and then
performs a pure transformation of that buffer into a `Bitmap` value (or an
error).  We embed that pure transformation as `Microbmp.decode` over
`List Nat` byte buffers.  Rust slice indexing with an out-of-range index
aborts the program with a bounds-check panic; that outcome is modelled
explicitly by the `DecodeResult.panic` constructor, kept distinct from the
`BitmapError` values the function can return.

Machine integers are modelled as `Nat` (with an explicit `% 2^32` where the
u32 addition producing `end` may wrap) and `Int` for the two signed header
fields.  The `transmute` of a 4-byte array into an integer is the
little-endian interpretation of those bytes (the code targets little-endian
hosts; the file format is little-endian).
-/

namespace Microbmp

/-- `enum Pixel` of lib.rs lines 10-14. -/
inductive Pixel where
  | ABGR : Nat → Nat → Nat → Nat → Pixel
  | BGR : Nat → Nat → Nat → Pixel
  | PaletteColor : Nat → Pixel
deriving DecidableEq, Repr

/-- `enum CompressionMethod` of lib.rs lines 18-26. -/
inductive CompressionMethod where
  | none
  | rle8Bit
  | rle4Bit
  | huffman1D
  | jpeg
  | png
  | other : Nat → CompressionMethod
deriving DecidableEq, Repr

/-- `struct BitmapV5Header` of lib.rs lines 30-37. -/
structure BitmapV5Header where
  size : Nat
  pix_width : Int
  pix_height : Int
  bpp : Nat
  method : CompressionMethod
  colors : Nat
deriving DecidableEq, Repr

/-- `struct Bitmap` of lib.rs lines 41-47. -/
structure Bitmap where
  data : List Nat
  size : Nat
  offset : Nat
  header : BitmapV5Header
  pixels : List Pixel
deriving DecidableEq, Repr

/-- `enum BitmapError` of lib.rs lines 52-56, restricted to the two kinds the
buffer-level decode itself can produce (`BitmapIOError` belongs to the
excluded file-reading wrapper). -/
inductive BitmapError where
  | invalidBitmapData
  | unsupportedBitsPerPixel
deriving DecidableEq, Repr

/-- Outcome of running `Bitmap::new` on a buffer: a `Bitmap`, an error
return, or a Rust bounds-check panic (out-of-range slice index). -/
inductive DecodeResult where
  | ok : Bitmap → DecodeResult
  | err : BitmapError → DecodeResult
  | panic : DecodeResult
deriving DecidableEq, Repr

/-- Little-endian read of a 16-bit unsigned integer at byte offset `i`:
the `transmute::<[u8; 2], u16>` of `buf[i..i+2]` (lib.rs lines 104-108). -/
def leU16 (buf : List Nat) (i : Nat) : Nat :=
  buf.getD i 0 + 256 * buf.getD (i + 1) 0

/-- Little-endian read of a 32-bit unsigned integer at byte offset `i`:
the `transmute::<[u8; 4], u32>` of `buf[i..i+4]`. -/
def leU32 (buf : List Nat) (i : Nat) : Nat :=
  buf.getD i 0 + 256 * buf.getD (i + 1) 0 + 65536 * buf.getD (i + 2) 0 +
    16777216 * buf.getD (i + 3) 0

/-- Reinterpret a `u32` value as an `i32` (two's complement), for the
`transmute::<[u8; 4], i32>` reads of `pix_width` and `pix_height`. -/
def toI32 (v : Nat) : Int :=
  if v < 2147483648 then (v : Int) else (v : Int) - 4294967296

/-- The `match` on the compression-method code, lib.rs lines 113-121. -/
def methodOfCode : Nat → CompressionMethod
  | 0 => CompressionMethod.none
  | 1 => CompressionMethod.rle8Bit
  | 2 => CompressionMethod.rle4Bit
  | 3 => CompressionMethod.huffman1D
  | 4 => CompressionMethod.jpeg
  | 5 => CompressionMethod.png
  | n => CompressionMethod.other n

/-- `end = offset + <LE u32 at 34>` (lib.rs lines 124-128); the u32 addition
wraps modulo `2^32`. -/
def regionEnd (buf : List Nat) : Nat :=
  (leU32 buf 10 + leU32 buf 34) % 4294967296

/-- Rust slicing `l[a..b]`: `some` of the sub-list when `a ≤ b ≤ l.length`,
`none` (a bounds-check panic at the call site) otherwise. -/
def slice (l : List Nat) (a b : Nat) : Option (List Nat) :=
  if a ≤ b ∧ b ≤ l.length then some ((l.drop a).take (b - a)) else none

/-- `slice::chunks(4)`: non-overlapping sub-lists of length 4 in order; the
final chunk is shorter when the length is not a multiple of 4; no empty
chunk is produced. -/
def chunks4 (l : List Nat) : List (List Nat) :=
  match l with
  | [] => []
  | a :: b :: c :: d :: rest => [a, b, c, d] :: chunks4 rest
  | l => [l]

/-- The closure of lib.rs lines 140-142: reads `slice[0] .. slice[3]`, which
panics (`none`) when the chunk has fewer than 4 bytes. -/
def abgrOfChunk (c : List Nat) : Option Pixel :=
  match c with
  | b0 :: b1 :: b2 :: b3 :: _ => some (Pixel.ABGR b0 b1 b2 b3)
  | _ => none

/-- `.map(closure).collect()` over the chunks: applies `abgrOfChunk` left to
right, aborting (`none`) at the first chunk whose indexing panics. -/
def collectABGR : List (List Nat) → Option (List Pixel)
  | [] => some []
  | c :: rest =>
    match abgrOfChunk c, collectABGR rest with
    | some p, some ps => some (p :: ps)
    | _, _ => Option.none

/-- `fn nibbles` of lib.rs lines 147-149: high nibble then low nibble. -/
def nibbles (n : Nat) : List Nat :=
  [(n &&& 240) >>> 4, n &&& 15]

/-- The `Ok(Bitmap { ... })` construction of lib.rs lines 161-174: every
header field is the little-endian read of its fixed byte range. -/
def mkBitmap (buf : List Nat) (ps : List Pixel) : Bitmap :=
  { data := buf
    size := leU32 buf 2
    offset := leU32 buf 10
    header :=
      { size := leU32 buf 14
        pix_width := toI32 (leU32 buf 18)
        pix_height := toI32 (leU32 buf 22)
        bpp := leU16 buf 28
        method := methodOfCode (leU32 buf 30)
        colors := leU32 buf 46 }
    pixels := ps }

/-- The buffer-level body of `Bitmap::new` (lib.rs lines 69-175).

The magic check `&buf[0..2] != b"BM"` panics when the buffer is shorter
than 2 bytes; after it passes, the fixed-offset header reads
(`buf[2..6]` .. `buf[46..50]`) panic exactly when the buffer is shorter
than 50 bytes.  The `bpp` dispatch mirrors the `match` of lines 136-159:
for 24/32 bpp the region is chunked into 4-byte groups and each group read
through the panicking closure; for 4 bpp each region byte is split into its
two nibbles; any other value returns `UnsupportedBitsPerPixel`. -/
def decode (buf : List Nat) : DecodeResult :=
  if buf.length < 2 then DecodeResult.panic
  else if buf.take 2 ≠ [66, 77] then DecodeResult.err BitmapError.invalidBitmapData
  else if buf.length < 50 then DecodeResult.panic
  else if leU16 buf 28 = 24 ∨ leU16 buf 28 = 32 then
    match slice buf (leU32 buf 10) (regionEnd buf) with
    | Option.none => DecodeResult.panic
    | some region =>
      match collectABGR (chunks4 region) with
      | Option.none => DecodeResult.panic
      | some ps => DecodeResult.ok (mkBitmap buf ps)
  else if leU16 buf 28 = 4 then
    match slice buf (leU32 buf 10) (regionEnd buf) with
    | Option.none => DecodeResult.panic
    | some region =>
      DecodeResult.ok (mkBitmap buf ((region.flatMap nibbles).map Pixel.PaletteColor))
  else DecodeResult.err BitmapError.unsupportedBitsPerPixel

/-- The ABGR pixel list produced from a byte region: consecutive 4-byte
groups become `ABGR` pixels in source byte order, a trailing group of fewer
than 4 bytes producing nothing. -/
def abgrExpected : List Nat → List Pixel
  | b0 :: b1 :: b2 :: b3 :: rest => Pixel.ABGR b0 b1 b2 b3 :: abgrExpected rest
  | _ => []

/-! Concrete buffers used as witnesses and counterexamples. -/

/-- Buffer of the concrete 24bpp scenario: `"BM"` + zeros, pixel-data offset
54, pixel-data size field 8, bpp field 24, 62 bytes total. -/
def c8buf : List Nat :=
  (((((List.replicate 62 0).set 0 66).set 1 77).set 10 54).set 28 24).set 34 8

/-- The `Bitmap` value the concrete 24bpp scenario decodes to. -/
def c8bm : Bitmap :=
  { data := c8buf
    size := 0
    offset := 54
    header :=
      { size := 0, pix_width := 0, pix_height := 0, bpp := 24
        method := CompressionMethod.none, colors := 0 }
    pixels := [Pixel.ABGR 0 0 0 0, Pixel.ABGR 0 0 0 0] }

/-- Valid 24bpp buffer whose pixel-data region has length 5 = 4·1 + 1:
offset 50, data-size field 5, 55 bytes total. -/
def c2buf : List Nat :=
  (((((List.replicate 55 0).set 0 66).set 1 77).set 10 50).set 28 24).set 34 5

/-- Valid 32bpp buffer with one pixel of bytes 1,2,3,4: offset 50,
data-size field 4, 54 bytes total. -/
def c1wbuf : List Nat :=
  (((((((((List.replicate 54 0).set 0 66).set 1 77).set 10 50).set 28 32).set
    34 4).set 50 1).set 51 2).set 52 3).set 53 4

/-- The `Bitmap` value `c1wbuf` decodes to. -/
def c1wbm : Bitmap :=
  { data := c1wbuf
    size := 0
    offset := 50
    header :=
      { size := 0, pix_width := 0, pix_height := 0, bpp := 32
        method := CompressionMethod.none, colors := 0 }
    pixels := [Pixel.ABGR 1 2 3 4] }

/-- Valid 4bpp buffer with region bytes `0xAB` and `0x05`: offset 50,
data-size field 2, 52 bytes total. -/
def c4wbuf : List Nat :=
  (((((((List.replicate 52 0).set 0 66).set 1 77).set 10 50).set 28 4).set
    34 2).set 50 171).set 51 5

/-- The `Bitmap` value `c4wbuf` decodes to. -/
def c4wbm : Bitmap :=
  { data := c4wbuf
    size := 0
    offset := 50
    header :=
      { size := 0, pix_width := 0, pix_height := 0, bpp := 4
        method := CompressionMethod.none, colors := 0 }
    pixels := [Pixel.PaletteColor 10, Pixel.PaletteColor 11,
      Pixel.PaletteColor 0, Pixel.PaletteColor 5] }

/-- Buffer of 50 zero bytes with a valid signature; its bpp field is 0. -/
def c7wbuf : List Nat := ((List.replicate 50 0).set 0 66).set 1 77

/-- Buffer starting with `"BM"` and then 1 more byte, shorter than 50. -/
def c3wbuf : List Nat := [66, 77, 0]

/-! Helper lemmas about the pixel-region combinators. -/

theorem getD_cons4 (b0 b1 b2 b3 : Nat) (rest : List Nat) (m : Nat) :
    (b0 :: b1 :: b2 :: b3 :: rest).getD (m + 4) 0 = rest.getD m 0 := rfl

theorem slice_some (l : List Nat) (a b : Nat) (r : List Nat)
    (h : slice l a b = some r) :
    a ≤ b ∧ b ≤ l.length ∧ r = (l.drop a).take (b - a) := by
  unfold slice at h
  split at h
  · rename_i hc
    injection h with h
    exact ⟨hc.1, hc.2, h.symm⟩
  · exact absurd h (by simp)

theorem slice_some_length (l : List Nat) (a b : Nat) (r : List Nat)
    (h : slice l a b = some r) : r.length = b - a := by
  obtain ⟨hab, hb, hr⟩ := slice_some l a b r h
  subst hr
  simp [List.length_take, List.length_drop]
  omega

theorem slice_some_getD (l : List Nat) (a b : Nat) (r : List Nat)
    (h : slice l a b = some r) (j : Nat) (hj : j < b - a) :
    r.getD j 0 = l.getD (a + j) 0 := by
  obtain ⟨hab, hb, hr⟩ := slice_some l a b r h
  subst hr
  rw [List.getD_eq_getElem?_getD, List.getD_eq_getElem?_getD,
    List.getElem?_take_of_lt hj, List.getElem?_drop]

theorem chunks4_nil : chunks4 [] = [] := rfl

theorem chunks4_cons4 (a b c d : Nat) (rest : List Nat) :
    chunks4 (a :: b :: c :: d :: rest) = [a, b, c, d] :: chunks4 rest := rfl

theorem abgrExpected_length (l : List Nat) :
    (abgrExpected l).length = l.length / 4 := by
  induction l using abgrExpected.induct with
  | case1 b0 b1 b2 b3 rest ih =>
    simp only [abgrExpected, List.length_cons, ih]
    omega
  | case2 l hl =>
    match l, hl with
    | [], _ => simp [abgrExpected]
    | [a], _ => simp [abgrExpected]
    | [a, b], _ => simp [abgrExpected]
    | [a, b, c], _ => simp [abgrExpected]
    | a :: b :: c :: d :: rest, hl => exact (hl a b c d rest rfl).elim

theorem abgrExpected_getElem (l : List Nat) (i : Nat) (h : 4 * i + 3 < l.length) :
    (abgrExpected l)[i]? =
      some (Pixel.ABGR (l.getD (4 * i) 0) (l.getD (4 * i + 1) 0)
        (l.getD (4 * i + 2) 0) (l.getD (4 * i + 3) 0)) := by
  induction l using abgrExpected.induct generalizing i with
  | case1 b0 b1 b2 b3 rest ih =>
    match i with
    | 0 => simp [abgrExpected]
    | i + 1 =>
      have hrest : 4 * i + 3 < rest.length := by
        simp only [List.length_cons] at h
        omega
      simp only [abgrExpected, List.getElem?_cons_succ, ih i hrest]
      have e0 : 4 * (i + 1) = 4 * i + 4 := by omega
      have e1 : 4 * (i + 1) + 1 = (4 * i + 1) + 4 := by omega
      have e2 : 4 * (i + 1) + 2 = (4 * i + 2) + 4 := by omega
      have e3 : 4 * (i + 1) + 3 = (4 * i + 3) + 4 := by omega
      rw [e1, e2, e3, e0, getD_cons4, getD_cons4, getD_cons4, getD_cons4]
  | case2 l hl =>
    exfalso
    match l, hl with
    | [], _ => simp only [List.length_nil] at h; omega
    | [a], _ => simp only [List.length_cons, List.length_nil] at h; omega
    | [a, b], _ => simp only [List.length_cons, List.length_nil] at h; omega
    | [a, b, c], _ => simp only [List.length_cons, List.length_nil] at h; omega
    | a :: b :: c :: d :: rest, hl => exact (hl a b c d rest rfl).elim

theorem abgrExpected_mem (l : List Nat) (p : Pixel) (h : p ∈ abgrExpected l) :
    ∃ a b c d, p = Pixel.ABGR a b c d := by
  induction l using abgrExpected.induct with
  | case1 b0 b1 b2 b3 rest ih =>
    simp only [abgrExpected, List.mem_cons] at h
    rcases h with h | h
    · exact ⟨b0, b1, b2, b3, h⟩
    · exact ih h
  | case2 l hl =>
    match l, hl with
    | [], _ => simp [abgrExpected] at h
    | [a], _ => simp [abgrExpected] at h
    | [a, b], _ => simp [abgrExpected] at h
    | [a, b, c], _ => simp [abgrExpected] at h
    | a :: b :: c :: d :: rest, hl => exact (hl a b c d rest rfl).elim

theorem collectABGR_chunks4_of_mod (l : List Nat) (h : l.length % 4 = 0) :
    collectABGR (chunks4 l) = some (abgrExpected l) := by
  induction l using abgrExpected.induct with
  | case1 b0 b1 b2 b3 rest ih =>
    have hrest : rest.length % 4 = 0 := by
      simp only [List.length_cons] at h
      omega
    rw [chunks4_cons4]
    simp only [collectABGR, abgrOfChunk, ih hrest, abgrExpected]
  | case2 l hl =>
    match l, hl with
    | [], _ => rfl
    | [a], _ => simp at h
    | [a, b], _ => simp at h
    | [a, b, c], _ => simp at h
    | a :: b :: c :: d :: rest, hl => exact (hl a b c d rest rfl).elim

theorem collectABGR_chunks4_of_not_mod (l : List Nat) (h : l.length % 4 ≠ 0) :
    collectABGR (chunks4 l) = Option.none := by
  induction l using abgrExpected.induct with
  | case1 b0 b1 b2 b3 rest ih =>
    have hrest : rest.length % 4 ≠ 0 := by
      simp only [List.length_cons] at h ⊢
      omega
    rw [chunks4_cons4]
    simp only [collectABGR, abgrOfChunk, ih hrest]
  | case2 l hl =>
    match l, hl with
    | [], _ => simp at h
    | [a], _ => rfl
    | [a, b], _ => rfl
    | [a, b, c], _ => rfl
    | a :: b :: c :: d :: rest, hl => exact (hl a b c d rest rfl).elim

theorem palette_length (l : List Nat) :
    ((l.flatMap nibbles).map Pixel.PaletteColor).length = 2 * l.length := by
  induction l with
  | nil => simp
  | cons a t ih =>
    simp only [List.flatMap_cons, List.map_append, List.length_append,
      List.length_cons, ih, nibbles, List.map_cons, List.map_nil,
      List.length_nil]
    omega

theorem palette_getElem (l : List Nat) (i : Nat) (h : i < l.length) :
    ((l.flatMap nibbles).map Pixel.PaletteColor)[2 * i]? =
        some (Pixel.PaletteColor ((l.getD i 0 &&& 240) >>> 4)) ∧
      ((l.flatMap nibbles).map Pixel.PaletteColor)[2 * i + 1]? =
        some (Pixel.PaletteColor (l.getD i 0 &&& 15)) := by
  induction l generalizing i with
  | nil => simp at h
  | cons a t ih =>
    match i with
    | 0 =>
      constructor
      · simp [nibbles, List.flatMap_cons]
      · simp [nibbles, List.flatMap_cons]
    | i + 1 =>
      have ht : i < t.length := by
        simp only [List.length_cons] at h
        omega
      obtain ⟨ih1, ih2⟩ := ih i ht
      constructor
      · rw [show 2 * (i + 1) = 2 * i + 1 + 1 from by omega]
        simp only [List.flatMap_cons, nibbles, List.cons_append,
          List.nil_append, List.map_cons, List.getElem?_cons_succ]
        rw [ih1, List.getD_cons_succ]
      · rw [show 2 * (i + 1) + 1 = (2 * i + 1) + 1 + 1 from by omega]
        simp only [List.flatMap_cons, nibbles, List.cons_append,
          List.nil_append, List.map_cons, List.getElem?_cons_succ]
        rw [ih2, List.getD_cons_succ]

theorem and_15_eq_mod (n : Nat) : n &&& 15 = n % 16 := by
  have h := Nat.and_pow_two_sub_one_eq_mod n 4
  norm_num at h
  exact h

theorem and_240_shift_eq (n : Nat) : (n &&& 240) >>> 4 = n / 16 % 16 := by
  have h1 : n / 16 = n >>> 4 := by
    rw [Nat.shiftRight_eq_div_pow]
  rw [h1, ← and_15_eq_mod]
  apply Nat.eq_of_testBit_eq
  intro i
  simp only [Nat.testBit_shiftRight, Nat.testBit_and]
  rw [show (240 : Nat) = 15 <<< 4 from by norm_num [Nat.shiftLeft_eq],
    Nat.testBit_shiftLeft]
  simp [Nat.le_add_right, Nat.add_sub_cancel_left]

theorem methodOfCode_eq_ite (c : Nat) :
    methodOfCode c =
      (if c = 0 then CompressionMethod.none
        else if c = 1 then CompressionMethod.rle8Bit
        else if c = 2 then CompressionMethod.rle4Bit
        else if c = 3 then CompressionMethod.huffman1D
        else if c = 4 then CompressionMethod.jpeg
        else if c = 5 then CompressionMethod.png
        else CompressionMethod.other c) := by
  match c with
  | 0 => rfl
  | 1 => rfl
  | 2 => rfl
  | 3 => rfl
  | 4 => rfl
  | 5 => rfl
  | n + 6 => rfl

theorem decode_ok_inv (buf : List Nat) (bm : Bitmap)
    (h : decode buf = DecodeResult.ok bm) :
    bm = mkBitmap buf bm.pixels ∧
    ∃ region, slice buf (leU32 buf 10) (regionEnd buf) = some region ∧
      (((leU16 buf 28 = 24 ∨ leU16 buf 28 = 32) ∧
          collectABGR (chunks4 region) = some bm.pixels) ∨
        (leU16 buf 28 = 4 ∧
          bm.pixels = (region.flatMap nibbles).map Pixel.PaletteColor)) := by
  unfold decode at h
  split at h
  · exact absurd h (by simp)
  split at h
  · exact absurd h (by simp)
  split at h
  · exact absurd h (by simp)
  split at h
  · rename_i hbpp
    split at h
    · exact absurd h (by simp)
    · rename_i region hreg
      split at h
      · exact absurd h (by simp)
      · rename_i ps hps
        injection h with h
        subst h
        exact ⟨rfl, region, hreg, Or.inl ⟨hbpp, hps⟩⟩
  · split at h
    · rename_i hnot24 hbpp4
      split at h
      · exact absurd h (by simp)
      · rename_i region hreg
        injection h with h
        subst h
        exact ⟨rfl, region, hreg, Or.inr ⟨hbpp4, rfl⟩⟩
    · exact absurd h (by simp)

/-- Buffer consisting of the signature `"BM"` and nothing else. -/
def c3buf : List Nat := [66, 77]

/-! Claim theorems. -/

/-- C1: for every successfully decoded buffer whose bpp field is 24 or 32 and
whose pixel-data region has length exactly `4k` bytes, the result has exactly
`k` ABGR pixels, pixel `i` being `ABGR(b0, b1, b2, b3)` with `b0 .. b3` the 4
consecutive buffer bytes at `offset + 4i`, in source byte order, with 24bpp
treated identically to 32bpp. -/
theorem c1_abgr_pixels (buf : List Nat) (bm : Bitmap) (k : Nat)
    (hok : decode buf = DecodeResult.ok bm)
    (hbpp : bm.header.bpp = 24 ∨ bm.header.bpp = 32)
    (hlen : regionEnd buf - bm.offset = 4 * k) :
    bm.pixels.length = k ∧
    ∀ i, i < k →
      bm.pixels[i]? = some (Pixel.ABGR
        (buf.getD (bm.offset + 4 * i) 0)
        (buf.getD (bm.offset + 4 * i + 1) 0)
        (buf.getD (bm.offset + 4 * i + 2) 0)
        (buf.getD (bm.offset + 4 * i + 3) 0)) := by
  obtain ⟨hbm, region, hreg, hcase⟩ := decode_ok_inv buf bm hok
  have hoff : bm.offset = leU32 buf 10 := by rw [hbm]; rfl
  have hbppf : bm.header.bpp = leU16 buf 28 := by rw [hbm]; rfl
  rcases hcase with ⟨_, hcol⟩ | ⟨hb4, _⟩
  · have hrl : region.length = regionEnd buf - leU32 buf 10 :=
      slice_some_length buf (leU32 buf 10) (regionEnd buf) region hreg
    have hrl4 : region.length = 4 * k := by rw [hrl, ← hoff, hlen]
    have hsome := collectABGR_chunks4_of_mod region (by omega)
    rw [hsome] at hcol
    injection hcol with hcol
    refine ⟨?_, ?_⟩
    · rw [← hcol, abgrExpected_length, hrl4]
      omega
    · intro i hi
      have hib : 4 * i + 3 < region.length := by omega
      rw [← hcol, abgrExpected_getElem region i hib]
      have g0 := slice_some_getD buf (leU32 buf 10) (regionEnd buf) region hreg
        (4 * i) (by omega)
      have g1 := slice_some_getD buf (leU32 buf 10) (regionEnd buf) region hreg
        (4 * i + 1) (by omega)
      have g2 := slice_some_getD buf (leU32 buf 10) (regionEnd buf) region hreg
        (4 * i + 2) (by omega)
      have g3 := slice_some_getD buf (leU32 buf 10) (regionEnd buf) region hreg
        (4 * i + 3) (by omega)
      rw [g0, g1, g2, g3, hoff]
      simp [Nat.add_assoc]
  · exfalso
    rw [hbppf, hb4] at hbpp
    rcases hbpp with h | h <;> omega

/-- Witness for C1 at a concrete one-pixel 32bpp buffer with region bytes
1, 2, 3, 4. -/
theorem c1_abgr_pixels_witness :
    decode c1wbuf = DecodeResult.ok c1wbm ∧
    (c1wbm.header.bpp = 24 ∨ c1wbm.header.bpp = 32) ∧
    regionEnd c1wbuf - c1wbm.offset = 4 * 1 ∧
    c1wbm.pixels.length = 1 :=
  ⟨by decide, by decide, by decide,
    (c1_abgr_pixels c1wbuf c1wbm 1 (by decide) (by decide) (by decide)).1⟩

/-- C2 counterexample: a valid 24bpp buffer whose pixel-data region has
length 5 = 4·1 + 1.  The claim predicts a successful decode with 1 pixel;
the code aborts with a bounds-check panic on the trailing 1-byte chunk. -/
theorem c2_counterexample :
    leU16 c2buf 28 = 24 ∧
    regionEnd c2buf - leU32 c2buf 10 = 4 * 1 + 1 ∧
    decode c2buf = DecodeResult.panic :=
  ⟨by decide, by decide, by decide⟩

/-- C2 amended: for every parsed buffer with bpp 24 or 32 whose pixel-data
region length is `4k + r` with `0 < r < 4`, the trailing `r` bytes are NOT
silently dropped: the decode aborts with an index-out-of-bounds panic on the
trailing partial chunk instead of succeeding. -/
theorem c2_amended_panic (buf : List Nat) (k r : Nat)
    (hlen : 50 ≤ buf.length)
    (hm : buf.take 2 = [66, 77])
    (hbpp : leU16 buf 28 = 24 ∨ leU16 buf 28 = 32)
    (hoff : leU32 buf 10 ≤ regionEnd buf)
    (hend : regionEnd buf ≤ buf.length)
    (hr : regionEnd buf - leU32 buf 10 = 4 * k + r)
    (hr0 : 0 < r) (hr3 : r < 4) :
    decode buf = DecodeResult.panic := by
  unfold decode
  rw [if_neg (show ¬ buf.length < 2 by omega),
    if_neg (show ¬ buf.take 2 ≠ [66, 77] by simp [hm]),
    if_neg (show ¬ buf.length < 50 by omega),
    if_pos hbpp]
  have hs : slice buf (leU32 buf 10) (regionEnd buf) =
      some ((buf.drop (leU32 buf 10)).take (regionEnd buf - leU32 buf 10)) := by
    unfold slice
    rw [if_pos ⟨hoff, hend⟩]
  have hmod :
      ((buf.drop (leU32 buf 10)).take (regionEnd buf - leU32 buf 10)).length % 4 ≠ 0 := by
    simp only [List.length_take, List.length_drop]
    omega
  simp only [hs]
  rw [collectABGR_chunks4_of_not_mod _ hmod]

/-- Witness for the amended C2 at the concrete buffer `c2buf`. -/
theorem c2_amended_panic_witness :
    (leU16 c2buf 28 = 24 ∨ leU16 c2buf 28 = 32) ∧ decode c2buf = DecodeResult.panic :=
  ⟨by decide,
    c2_amended_panic c2buf 1 1 (by decide) (by decide) (by decide) (by decide)
      (by decide) (by decide) (by decide) (by decide)⟩

/-- C3 counterexample: the buffer `"BM"` alone (2 bytes, fewer than the 50
needed by the fixed header reads).  The claim says the decode fails or
safely reports an error value (no panic); the code aborts with a
bounds-check panic on the header slice reads. -/
theorem c3_counterexample :
    c3buf.take 2 = [66, 77] ∧ c3buf.length < 50 ∧
    decode c3buf = DecodeResult.panic :=
  ⟨by decide, by decide, by decide⟩

/-- C3 amended: for buffers beginning with `"BM"` that are shorter than the
50 bytes the fixed header reads require, and for parsed buffers with a
supported bpp whose computed `end` exceeds the buffer length, the decode
aborts with a bounds-check panic; it does not return an error value. -/
theorem c3_amended_panic (buf : List Nat)
    (h : (buf.take 2 = [66, 77] ∧ buf.length < 50) ∨
      (50 ≤ buf.length ∧ buf.take 2 = [66, 77] ∧
        (leU16 buf 28 = 4 ∨ leU16 buf 28 = 24 ∨ leU16 buf 28 = 32) ∧
        buf.length < regionEnd buf)) :
    decode buf = DecodeResult.panic := by
  rcases h with ⟨hm, hlen⟩ | ⟨hlen, hm, hbpp, hend⟩
  · have h2 : 2 ≤ buf.length := by
      have hl := congrArg List.length hm
      simp only [List.length_take, List.length_cons, List.length_nil] at hl
      omega
    unfold decode
    rw [if_neg (show ¬ buf.length < 2 by omega),
      if_neg (show ¬ buf.take 2 ≠ [66, 77] by simp [hm]),
      if_pos hlen]
  · have hs : slice buf (leU32 buf 10) (regionEnd buf) = Option.none := by
      unfold slice
      rw [if_neg (by omega)]
    unfold decode
    rw [if_neg (show ¬ buf.length < 2 by omega),
      if_neg (show ¬ buf.take 2 ≠ [66, 77] by simp [hm]),
      if_neg (show ¬ buf.length < 50 by omega)]
    by_cases hb : leU16 buf 28 = 24 ∨ leU16 buf 28 = 32
    · rw [if_pos hb]
      simp only [hs]
    · rw [if_neg hb]
      have h4 : leU16 buf 28 = 4 := by
        rcases hbpp with h | h | h
        · exact h
        · exact absurd (Or.inl h) hb
        · exact absurd (Or.inr h) hb
      rw [if_pos h4]
      simp only [hs]

/-- Witness for the amended C3 at the concrete short buffer `c3wbuf`. -/
theorem c3_amended_panic_witness :
    (c3wbuf.take 2 = [66, 77] ∧ c3wbuf.length < 50) ∧
    decode c3wbuf = DecodeResult.panic :=
  ⟨⟨by decide, by decide⟩,
    c3_amended_panic c3wbuf (Or.inl ⟨by decide, by decide⟩)⟩

/-- C4: for every successfully parsed buffer with bpp field 4 and pixel-data
region of length `n`, the result has exactly `2n` pixels, all
`PaletteColor`; for each region byte, the pixel at `2i` carries its high
nibble and the pixel at `2i + 1` its low nibble. -/
theorem c4_palette_pixels (buf : List Nat) (bm : Bitmap) (n : Nat)
    (hok : decode buf = DecodeResult.ok bm)
    (hbpp : bm.header.bpp = 4)
    (hn : regionEnd buf - bm.offset = n) :
    bm.pixels.length = 2 * n ∧
    (∀ p ∈ bm.pixels, ∃ v, p = Pixel.PaletteColor v) ∧
    ∀ i, i < n →
      bm.pixels[2 * i]? =
        some (Pixel.PaletteColor (buf.getD (bm.offset + i) 0 / 16 % 16)) ∧
      bm.pixels[2 * i + 1]? =
        some (Pixel.PaletteColor (buf.getD (bm.offset + i) 0 % 16)) := by
  obtain ⟨hbm, region, hreg, hcase⟩ := decode_ok_inv buf bm hok
  have hoff : bm.offset = leU32 buf 10 := by rw [hbm]; rfl
  have hbppf : bm.header.bpp = leU16 buf 28 := by rw [hbm]; rfl
  rcases hcase with ⟨hb, _⟩ | ⟨_, hpix⟩
  · exfalso
    rw [hbppf] at hbpp
    rcases hb with h | h <;> omega
  · have hrl : region.length = regionEnd buf - leU32 buf 10 :=
      slice_some_length buf (leU32 buf 10) (regionEnd buf) region hreg
    have hrln : region.length = n := by rw [hrl, ← hoff, hn]
    refine ⟨?_, ?_, ?_⟩
    · rw [hpix, palette_length, hrln]
    · intro p hp
      rw [hpix] at hp
      obtain ⟨v, _, he⟩ := List.mem_map.1 hp
      exact ⟨v, he.symm⟩
    · intro i hi
      obtain ⟨h1, h2⟩ := palette_getElem region i (by omega)
      have gd := slice_some_getD buf (leU32 buf 10) (regionEnd buf) region hreg
        i (by omega)
      constructor
      · rw [hpix, h1, gd, hoff, and_240_shift_eq]
      · rw [hpix, h2, gd, hoff, and_15_eq_mod]

/-- Witness for C4 at a concrete 4bpp buffer with region bytes 0xAB, 0x05. -/
theorem c4_palette_pixels_witness :
    decode c4wbuf = DecodeResult.ok c4wbm ∧ c4wbm.header.bpp = 4 ∧
    regionEnd c4wbuf - c4wbm.offset = 2 ∧ c4wbm.pixels.length = 2 * 2 :=
  ⟨by decide, by decide, by decide,
    (c4_palette_pixels c4wbuf c4wbm 2 (by decide) (by decide) (by decide)).1⟩

/-- C5: every successfully decoded buffer carries the little-endian reads of
the fixed byte ranges: size from [2,6), offset from [10,14), header size
from [14,18), signed width and height from [18,22) and [22,26), bpp from
[28,30), colors from [46,50), `end` = offset + the LE u32 at [34,38) (u32
addition), and the compression method code at [30,34) mapped 0→None,
1→Rle8Bit, 2→Rle4Bit, 3→Huffman1D, 4→Jpeg, 5→Png, other n→Other(n). -/
theorem c5_header_fields (buf : List Nat) (bm : Bitmap)
    (hok : decode buf = DecodeResult.ok bm) :
    bm.size = leU32 buf 2 ∧
    bm.offset = leU32 buf 10 ∧
    bm.header.size = leU32 buf 14 ∧
    bm.header.pix_width = toI32 (leU32 buf 18) ∧
    bm.header.pix_height = toI32 (leU32 buf 22) ∧
    bm.header.bpp = leU16 buf 28 ∧
    bm.header.colors = leU32 buf 46 ∧
    regionEnd buf = (bm.offset + leU32 buf 34) % 4294967296 ∧
    bm.header.method =
      (if leU32 buf 30 = 0 then CompressionMethod.none
        else if leU32 buf 30 = 1 then CompressionMethod.rle8Bit
        else if leU32 buf 30 = 2 then CompressionMethod.rle4Bit
        else if leU32 buf 30 = 3 then CompressionMethod.huffman1D
        else if leU32 buf 30 = 4 then CompressionMethod.jpeg
        else if leU32 buf 30 = 5 then CompressionMethod.png
        else CompressionMethod.other (leU32 buf 30)) := by
  obtain ⟨hbm, _⟩ := decode_ok_inv buf bm hok
  rw [hbm]
  exact ⟨rfl, rfl, rfl, rfl, rfl, rfl, rfl, rfl, methodOfCode_eq_ite (leU32 buf 30)⟩

/-- Witness for C5 at the concrete buffer `c8buf`. -/
theorem c5_header_fields_witness :
    decode c8buf = DecodeResult.ok c8bm ∧ c8bm.offset = leU32 c8buf 10 :=
  ⟨by decide, (c5_header_fields c8buf c8bm (by decide)).2.1⟩

/-- C6: for every buffer with at least two bytes whose first two bytes are
not the ASCII signature `"BM"`, decode fails with `InvalidBitmapData`,
regardless of the remaining content or the buffer length. -/
theorem c6_bad_magic (buf : List Nat) (h2 : 2 ≤ buf.length)
    (hm : buf.take 2 ≠ [66, 77]) :
    decode buf = DecodeResult.err BitmapError.invalidBitmapData := by
  unfold decode
  rw [if_neg (show ¬ buf.length < 2 by omega), if_pos hm]

/-- Witness for C6 at the two-byte buffer `[0, 0]`. -/
theorem c6_bad_magic_witness :
    decode [0, 0] = DecodeResult.err BitmapError.invalidBitmapData :=
  c6_bad_magic [0, 0] (by decide) (by decide)

/-- C7: for every buffer that passes the signature check and the header
reads but whose bpp field is not 4, 24 or 32, decode fails with
`UnsupportedBitsPerPixel`. -/
theorem c7_unsupported_bpp (buf : List Nat) (hlen : 50 ≤ buf.length)
    (hm : buf.take 2 = [66, 77])
    (hb : ¬(leU16 buf 28 = 4 ∨ leU16 buf 28 = 24 ∨ leU16 buf 28 = 32)) :
    decode buf = DecodeResult.err BitmapError.unsupportedBitsPerPixel := by
  unfold decode
  rw [if_neg (show ¬ buf.length < 2 by omega),
    if_neg (show ¬ buf.take 2 ≠ [66, 77] by simp [hm]),
    if_neg (show ¬ buf.length < 50 by omega),
    if_neg (show ¬ (leU16 buf 28 = 24 ∨ leU16 buf 28 = 32) from
      fun hc => hb (hc.elim (fun x => Or.inr (Or.inl x)) (fun x => Or.inr (Or.inr x)))),
    if_neg (show ¬ leU16 buf 28 = 4 from fun hc => hb (Or.inl hc))]

/-- Witness for C7 at a 50-byte buffer with bpp field 0. -/
theorem c7_unsupported_bpp_witness :
    decode c7wbuf = DecodeResult.err BitmapError.unsupportedBitsPerPixel :=
  c7_unsupported_bpp c7wbuf (by decide) (by decide) (by decide)

/-- C8: the concrete 24bpp scenario: `"BM"` + zeros with pixel-data offset
54, pixel-data size field 8, bpp field 24 decodes successfully; the
computed end is 62, the pixel region is the 8 zero bytes at [54,62), and
the result has exactly the two pixels `ABGR(0,0,0,0)`, `ABGR(0,0,0,0)`. -/
theorem c8_concrete_scenario :
    regionEnd c8buf = 62 ∧
    slice c8buf (leU32 c8buf 10) (regionEnd c8buf) = some (List.replicate 8 0) ∧
    decode c8buf = DecodeResult.ok c8bm :=
  ⟨by decide, by decide, by decide⟩

/-- C9: decode is deterministic: two runs on the same buffer produce equal
outcomes. -/
theorem c9_deterministic (buf : List Nat) (r1 r2 : DecodeResult)
    (h1 : decode buf = r1) (h2 : decode buf = r2) : r1 = r2 := by
  rw [← h1, ← h2]

/-- Witness for C9 at the empty buffer. -/
theorem c9_deterministic_witness :
    decode [] = DecodeResult.panic ∧ DecodeResult.panic = DecodeResult.panic :=
  ⟨by decide,
    c9_deterministic [] DecodeResult.panic DecodeResult.panic (by decide) (by decide)⟩

/-- C10: in every successfully decoded bitmap, every `PaletteColor` pixel
carries a value below 16 (a single nibble). -/
theorem c10_palette_nibble_bound (buf : List Nat) (bm : Bitmap)
    (hok : decode buf = DecodeResult.ok bm) :
    ∀ p ∈ bm.pixels, ∀ v, p = Pixel.PaletteColor v → v < 16 := by
  obtain ⟨_, region, _, hcase⟩ := decode_ok_inv buf bm hok
  intro p hp v hv
  rcases hcase with ⟨_, hcol⟩ | ⟨_, hpix⟩
  · have hmod : region.length % 4 = 0 := by
      by_contra hmm
      rw [collectABGR_chunks4_of_not_mod region hmm] at hcol
      exact Option.noConfusion hcol
    rw [collectABGR_chunks4_of_mod region hmod] at hcol
    injection hcol with hcol
    rw [← hcol] at hp
    obtain ⟨a, b, c, d, habcd⟩ := abgrExpected_mem region p hp
    rw [habcd] at hv
    exact Pixel.noConfusion hv
  · rw [hpix] at hp
    obtain ⟨w, hw, he⟩ := List.mem_map.1 hp
    rw [← he] at hv
    injection hv with hv
    subst hv
    obtain ⟨b, _, hwn⟩ := List.mem_flatMap.1 hw
    simp only [nibbles, List.mem_cons, List.mem_singleton,
      List.not_mem_nil, or_false] at hwn
    rcases hwn with h | h
    · rw [h, and_240_shift_eq]
      omega
    · rw [h, and_15_eq_mod]
      omega

/-- Witness for C10 at the concrete 4bpp buffer `c4wbuf`. -/
theorem c10_palette_nibble_bound_witness :
    decode c4wbuf = DecodeResult.ok c4wbm ∧
    (Pixel.PaletteColor 10 ∈ c4wbm.pixels → ∀ v,
      Pixel.PaletteColor 10 = Pixel.PaletteColor v → v < 16) :=
  ⟨by decide,
    c10_palette_nibble_bound c4wbuf c4wbm (by decide) (Pixel.PaletteColor 10)⟩

end Microbmp
